import Mathlib

/-!
Verification of the functional core of ImSimDeep (`src/InstcatTools.cc`):
the two static functions `desc::imsimdeep::InstcatTools::ang_sep` and
`desc::imsimdeep::InstcatTools::sky_cone_select`.

The file filter `sky_cone_select` is embedded over lists of characters and
lines: an `std::istringstream` is modelled as a remaining character list
together with a fail flag (`Iss`), the four extractions
`ss >> command >> objectID >> ra_obj >> dec_obj` are modelled by
`readString` (whitespace-token extraction of a `std::string`) and
`readDouble` (C++11 extraction of a `double`: if the stream has already
failed, or whitespace-skipping hits end of input, the sentry fails and the
target is left untouched, i.e. the C++ variable keeps its indeterminate
initial value, modelled by explicit `j1`/`j2` parameters; only a genuine
`num_get` conversion failure on a non-whitespace character stores 0 and
raises the fail flag).  Finite double values that appear in catalog text
are decimal literals; they are parsed exactly into `DecNum`
(mantissa/scale/exponent integers) and injected into `ℝ`.
-/

/-- C++ `isspace` in the default locale: the six whitespace characters. -/
def isWs (c : Char) : Bool :=
  c == ' ' || c == '\t' || c == '\n' || c == '\x0b' || c == '\x0c' || c == '\r'

/-- Complement of `isWs`, used for token extraction. -/
def nonWs (c : Char) : Bool := !isWs c

/-- Value of a decimal digit string, most significant first. -/
def digitsToNat (ds : List Char) : ℕ :=
  ds.foldl (fun n c => 10 * n + (c.toNat - 48)) 0

/-- An exactly represented decimal floating-point literal, as accepted by
`num_get` for a `double`: value `mant / 10 ^ scale * 10 ^ exp`. -/
structure DecNum where
  mant : ℤ
  scale : ℕ
  exp : ℤ
deriving DecidableEq

/-- The real value denoted by a parsed decimal literal. -/
noncomputable def DecNum.toReal (d : DecNum) : ℝ :=
  (d.mant : ℝ) / 10 ^ d.scale * (10 : ℝ) ^ d.exp

/-- Optional leading sign of a number; returns whether it was `-`. -/
def parseSign (cs : List Char) : Bool × List Char :=
  if cs.head? = some '+' then (false, cs.tail)
  else if cs.head? = some '-' then (true, cs.tail)
  else (false, cs)

/-- Mantissa `digits[.digits]` of a decimal literal: returns the combined
digit value and the number of fractional digits.  Fails when no digit is
present (matching `num_get`, which then stores 0 and raises `failbit`). -/
def parseMant (cs : List Char) : Option ((ℕ × ℕ) × List Char) :=
  if (cs.dropWhile Char.isDigit).head? = some '.' then
    if (cs.takeWhile Char.isDigit).isEmpty &&
        ((cs.dropWhile Char.isDigit).tail.takeWhile Char.isDigit).isEmpty then none
    else
      some ((digitsToNat (cs.takeWhile Char.isDigit) *
            10 ^ ((cs.dropWhile Char.isDigit).tail.takeWhile Char.isDigit).length +
            digitsToNat ((cs.dropWhile Char.isDigit).tail.takeWhile Char.isDigit),
          ((cs.dropWhile Char.isDigit).tail.takeWhile Char.isDigit).length),
        (cs.dropWhile Char.isDigit).tail.dropWhile Char.isDigit)
  else if (cs.takeWhile Char.isDigit).isEmpty then none
  else some ((digitsToNat (cs.takeWhile Char.isDigit), 0), cs.dropWhile Char.isDigit)

/-- The characters after an exponent marker and its optional sign. -/
def expDigitsInput (r : List Char) : List Char :=
  if r.head? = some '+' ∨ r.head? = some '-' then r.tail else r

/-- Optional exponent part `([eE][+-]?digits)?`.  An `e`/`E` whose digits
are missing makes the whole conversion fail, as `num_get` accumulates the
characters and then rejects the sequence. -/
def parseExpPart (cs : List Char) : Option (ℤ × List Char) :=
  if cs.head? = some 'e' ∨ cs.head? = some 'E' then
    if ((expDigitsInput cs.tail).takeWhile Char.isDigit).isEmpty then none
    else
      some ((if cs.tail.head? = some '-' then
          -(digitsToNat ((expDigitsInput cs.tail).takeWhile Char.isDigit) : ℤ)
        else (digitsToNat ((expDigitsInput cs.tail).takeWhile Char.isDigit) : ℤ)),
        (expDigitsInput cs.tail).dropWhile Char.isDigit)
  else some (0, cs)

/-- `num_get` extraction of a finite decimal `double` from a character
stream: longest accepted sequence starting at the head, then conversion.
Returns the parsed literal and the unconsumed characters. -/
def parseFloat (cs : List Char) : Option (DecNum × List Char) :=
  (parseMant (parseSign cs).2).bind fun msc =>
    (parseExpPart msc.2).bind fun ec =>
      some (⟨if (parseSign cs).1 then -(msc.1.1 : ℤ) else (msc.1.1 : ℤ),
        msc.1.2, ec.1⟩, ec.2)

/-- A whole whitespace-token read as a decimal literal: the parse must
consume every character of the token. -/
def parseWholeToken (t : String) : Option DecNum :=
  (parseFloat t.data).bind fun p => if p.2 = [] then some p.1 else none

/-- The whitespace-separated tokens of a character list, with fuel (one
unit per produced token); `fuel = length` always suffices. -/
def tokenizeAux : ℕ → List Char → List String
  | 0, _ => []
  | Nat.succ n, cs =>
    match cs.dropWhile isWs with
    | [] => []
    | c :: cs' =>
      String.mk (c :: cs'.takeWhile nonWs) :: tokenizeAux n (cs'.dropWhile nonWs)

/-- The whitespace-separated tokens of a character list. -/
def strTokens (cs : List Char) : List String := tokenizeAux cs.length cs

/-- The whitespace-separated tokens of a line, as described by the spec
(`command`, `objectID`, `ra`, `dec`, remainder). -/
def lineTokens (line : String) : List String := strTokens line.data

/-- An `std::istringstream` positioned inside one catalog line: the
characters not yet consumed, and whether the stream is in a failed state. -/
structure Iss where
  rest : List Char
  failed : Bool
deriving DecidableEq

/-- `ss >> s` for `std::string s`: skip whitespace, then read a maximal
non-whitespace run.  At end of input the extraction fails and leaves the
(default-constructed, hence empty) string empty. -/
def readString (s : Iss) : String × Iss :=
  if s.failed then ("", s)
  else
    match s.rest.dropWhile isWs with
    | [] => ("", ⟨[], true⟩)
    | c :: cs' => (String.mk (c :: cs'.takeWhile nonWs), ⟨cs'.dropWhile nonWs, false⟩)

/-- `ss >> x` for `double x` under C++11.  If the stream had already
failed, or skipping whitespace exhausts the input (the `istream` sentry
fails before `num_get` is ever invoked), the extraction is a no-op and the
target keeps its current (for `ra_obj`/`dec_obj`: indeterminate) value
`cur`, with the fail flag raised in the sentry case.  Only when a
non-whitespace character is present does `num_get` run: it converts the
longest accepted sequence, and on conversion failure stores 0 and raises
the fail flag. -/
noncomputable def readDouble (cur : ℝ) (s : Iss) : ℝ × Iss :=
  if s.failed then (cur, s)
  else if s.rest.dropWhile isWs = [] then (cur, ⟨[], true⟩)
  else
    match parseFloat (s.rest.dropWhile isWs) with
    | some (d, r) => (d.toReal, ⟨r, false⟩)
    | none => (0, ⟨s.rest.dropWhile isWs, true⟩)

/-- The four extractions `ss >> command >> objectID >> ra_obj >> dec_obj`
performed by `sky_cone_select` on an object line; `j1`, `j2` are the
indeterminate initial values of the uninitialised doubles `ra_obj` and
`dec_obj`. -/
noncomputable def extractObjectFields (j1 j2 : ℝ) (line : String) :
    String × String × ℝ × ℝ :=
  let p1 := readString ⟨line.data, false⟩
  let p2 := readString p1.2
  let p3 := readDouble j1 p2.2
  let p4 := readDouble j2 p3.2
  (p1.1, p2.1, p3.1, p4.1)

/-- Degrees to radians. -/
noncomputable def deg2rad (x : ℝ) : ℝ := x * (Real.pi / 180)

/-- Modelled from the spec: the unit vector of an (ra, dec) point in
degrees.  The body of `lsst::afw::coord::Coord::angularSeparation`, which
`InstcatTools::ang_sep` delegates to, is external to this repository;
spec section 4.1 prescribes the unit-vector representation. -/
noncomputable def sphVec (ra dec : ℝ) : ℝ × ℝ × ℝ :=
  (Real.cos (deg2rad dec) * Real.cos (deg2rad ra),
   Real.cos (deg2rad dec) * Real.sin (deg2rad ra),
   Real.sin (deg2rad dec))

/-- Euclidean inner product on ℝ³ written on nested pairs. -/
noncomputable def dot3 (u v : ℝ × ℝ × ℝ) : ℝ :=
  u.1 * v.1 + u.2.1 * v.2.1 + u.2.2 * v.2.2

/-- Modelled from the spec: `InstcatTools::ang_sep` — great-circle angular
separation in degrees via the dot product of the two unit vectors, clamped
to [-1, 1] before the arccosine (spec section 4.1). -/
noncomputable def ang_sep (ra0 dec0 ra1 dec1 : ℝ) : ℝ :=
  Real.arccos (max (-1) (min 1 (dot3 (sphVec ra0 dec0) (sphVec ra1 dec1)))) *
    (180 / Real.pi)

/-- One iteration of the `sky_cone_select` loop on the line just read:
a line whose first six characters are not `object` is passed through;
otherwise the line is kept exactly when the angular separation of the
extracted (ra_obj, dec_obj) from the reference point is at most `radius`.
`line.take 6` is `line.substr(0, 6)` (both clamp at the line length). -/
noncomputable def process_line (ra dec radius j1 j2 : ℝ) (line : String) :
    List String :=
  if line.take 6 ≠ "object" then [line]
  else if ang_sep ra dec (extractObjectFields j1 j2 line).2.2.1
      (extractObjectFields j1 j2 line).2.2.2 ≤ radius then [line]
  else []

/-- The `while (std::getline(...))` loop of `sky_cone_select` from line
index `i` on: emitted lines of each input line, concatenated in input
order.  `junk i` holds the indeterminate initial values of the two
uninitialised doubles declared in iteration `i`. -/
noncomputable def skyConeAux (ra dec radius : ℝ) (junk : ℕ → ℝ × ℝ) :
    ℕ → List String → List String
  | _, [] => []
  | i, l :: ls =>
    process_line ra dec radius (junk i).1 (junk i).2 l ++
      skyConeAux ra dec radius junk (i + 1) ls

/-- The lines written by `sky_cone_select` for the given input lines. -/
noncomputable def sky_cone_select_lines (ra dec radius : ℝ)
    (junk : ℕ → ℝ × ℝ) (input : List String) : List String :=
  skyConeAux ra dec radius junk 0 input

/-- `output << line << std::endl` for each emitted line: each line is
written unchanged and followed by one newline character. -/
def linesOut (ls : List String) : String :=
  String.join (ls.map (fun l => l ++ "\n"))

/-- The lines yielded by `while (std::getline(input, line, '\n'))` on the
given character content: split at `'\n'`; a final delimiter-less segment is
still yielded, but the empty read after a trailing newline fails and ends
the loop. -/
def getLinesAux (cur : List Char) : List Char → List String
  | [] => [String.mk cur]
  | '\n' :: [] => [String.mk cur]
  | '\n' :: c :: rest => String.mk cur :: getLinesAux [] (c :: rest)
  | c :: rest => getLinesAux (cur ++ [c]) rest

/-- The lines read from a file content string; an empty (or unopened)
stream yields no lines. -/
def getLines (s : String) : List String :=
  match s.data with
  | [] => []
  | c :: cs => getLinesAux [] (c :: cs)

/-- `InstcatTools::sky_cone_select` at the file level.  `fs` maps a path to
the content of a readable file there (`none`: the `ifstream` fails to
open).  The returned string is the content written to `outfile`: the
`ofstream` constructor creates/truncates the output unconditionally, and
when the input stream is failed the very first `getline` fails, so the loop
body never runs and the function returns normally leaving the output
empty — no error is reported in either case. -/
noncomputable def sky_cone_select_file (fs : String → Option String)
    (infile : String) (ra dec radius : ℝ) (junk : ℕ → ℝ × ℝ) : String :=
  match fs infile with
  | none => ""
  | some content =>
    linesOut (sky_cone_select_lines ra dec radius junk (getLines content))

lemma sphVec_dot_self (ra dec : ℝ) : dot3 (sphVec ra dec) (sphVec ra dec) = 1 := by
  have h1 := Real.sin_sq_add_cos_sq (deg2rad ra)
  have h2 := Real.sin_sq_add_cos_sq (deg2rad dec)
  simp only [dot3, sphVec]
  nlinarith [h1, h2]

lemma dot3_le_one (u v : ℝ × ℝ × ℝ) (hu : dot3 u u = 1) (hv : dot3 v v = 1) :
    dot3 u v ≤ 1 := by
  simp only [dot3] at hu hv ⊢
  nlinarith [sq_nonneg (u.1 - v.1), sq_nonneg (u.2.1 - v.2.1), sq_nonneg (u.2.2 - v.2.2)]

lemma neg_one_le_dot3 (u v : ℝ × ℝ × ℝ) (hu : dot3 u u = 1) (hv : dot3 v v = 1) :
    -1 ≤ dot3 u v := by
  simp only [dot3] at hu hv ⊢
  nlinarith [sq_nonneg (u.1 + v.1), sq_nonneg (u.2.1 + v.2.1), sq_nonneg (u.2.2 + v.2.2)]

lemma clamp_sphVec (a b c d : ℝ) :
    max (-1) (min 1 (dot3 (sphVec a b) (sphVec c d))) =
      dot3 (sphVec a b) (sphVec c d) := by
  rw [min_eq_right (dot3_le_one _ _ (sphVec_dot_self a b) (sphVec_dot_self c d)),
    max_eq_right (neg_one_le_dot3 _ _ (sphVec_dot_self a b) (sphVec_dot_self c d))]

/-- C5: for all finite inputs, `ang_sep` is defined and returns a value in
the range [0, 180] degrees. -/
theorem ang_sep_bounded (ra0 dec0 ra1 dec1 : ℝ) :
    0 ≤ ang_sep ra0 dec0 ra1 dec1 ∧ ang_sep ra0 dec0 ra1 dec1 ≤ 180 := by
  unfold ang_sep
  constructor
  · exact mul_nonneg (Real.arccos_nonneg _) (by positivity)
  · calc Real.arccos (max (-1) (min 1 (dot3 (sphVec ra0 dec0) (sphVec ra1 dec1)))) *
        (180 / Real.pi) ≤ Real.pi * (180 / Real.pi) :=
          mul_le_mul_of_nonneg_right (Real.arccos_le_pi _) (by positivity)
      _ = 180 := by field_simp

/-- C6: `ang_sep` is symmetric in its two points. -/
theorem ang_sep_symm (a b c d : ℝ) : ang_sep a b c d = ang_sep c d a b := by
  unfold ang_sep
  have h : dot3 (sphVec a b) (sphVec c d) = dot3 (sphVec c d) (sphVec a b) := by
    simp only [dot3]; ring
  rw [h]

lemma ang_sep_same (ra dec : ℝ) : ang_sep ra dec ra dec = 0 := by
  unfold ang_sep
  rw [sphVec_dot_self]
  norm_num [Real.arccos_one]

lemma sphVec_zero_zero : sphVec 0 0 = (1, 0, 0) := by
  simp [sphVec, deg2rad]

lemma sphVec_360_0 : sphVec 360 0 = (1, 0, 0) := by
  have h : (360 : ℝ) * (Real.pi / 180) = 2 * Real.pi := by ring
  simp [sphVec, deg2rad, h, Real.cos_two_pi, Real.sin_two_pi]

lemma sphVec_180_0 : sphVec 180 0 = (-1, 0, 0) := by
  have h : (180 : ℝ) * (Real.pi / 180) = Real.pi := by ring
  simp [sphVec, deg2rad, h]

lemma ang_sep_0_360 : ang_sep 0 0 360 0 = 0 := by
  unfold ang_sep
  rw [sphVec_zero_zero, sphVec_360_0]
  norm_num [dot3, Real.arccos_one]

lemma ang_sep_0_180 : ang_sep 0 0 180 0 = 180 := by
  unfold ang_sep
  rw [sphVec_zero_zero, sphVec_180_0]
  have h : dot3 ((1 : ℝ), (0 : ℝ), (0 : ℝ)) (-1, 0, 0) = -1 := by norm_num [dot3]
  rw [h]
  norm_num [Real.arccos_neg_one]
  field_simp

/-- C3: on an unreadable input path the code does NOT report an I/O
failure — it returns normally and the (already created/truncated) output
file is left empty.  This theorem evaluates the code at such an input. -/
theorem sky_cone_select_missing_input_silent :
    sky_cone_select_file (fun _ => none) "missing_input.txt" 0 0 1
      (fun _ => (0, 0)) = "" := rfl

/-- C10: `sky_cone_select` truncates/creates the output file on every
call; when the input cannot be opened it returns normally with the output
left empty, reporting nothing. -/
theorem sky_cone_select_truncates_output (fs : String → Option String)
    (infile : String) (ra dec radius : ℝ) (junk : ℕ → ℝ × ℝ)
    (h : fs infile = none) :
    sky_cone_select_file fs infile ra dec radius junk = "" := by
  unfold sky_cone_select_file
  rw [h]

theorem sky_cone_select_truncates_output_witness :
    ((fun (_ : String) => (none : Option String)) "catalog.txt" = none) ∧
    sky_cone_select_file (fun _ => none) "catalog.txt" 1 2 3 (fun _ => (4, 5)) = "" :=
  ⟨rfl, sky_cone_select_truncates_output (fun _ => none) "catalog.txt" 1 2 3
    (fun _ => (4, 5)) rfl⟩

/-- C4: an "object" line with fewer than 4 whitespace tokens is NOT
surfaced as an error: the `>> ra_obj` sentry fails at end of input, both
doubles keep their indeterminate initial values (here instantiated to 0),
and the line is filtered normally on those values. -/
theorem sky_cone_select_malformed_silent :
    (extractObjectFields 0 0 "object 42").2.2 = (0, 0) ∧
    process_line 0 0 10 0 0 "object 42" = ["object 42"] := by
  refine ⟨rfl, ?_⟩
  unfold process_line
  rw [if_neg (by decide : ¬("object 42".take 6 ≠ "object"))]
  have hc : ang_sep 0 0 (extractObjectFields 0 0 "object 42").2.2.1
      (extractObjectFields 0 0 "object 42").2.2.2 ≤ 10 := by
    rw [show (extractObjectFields 0 0 "object 42").2.2.1 = 0 from rfl,
      show (extractObjectFields 0 0 "object 42").2.2.2 = 0 from rfl, ang_sep_same]
    norm_num
  rw [if_pos hc]

/-- C9: a line whose first 6 characters are `object` is treated as an
object record even when its first whitespace token is longer: the command
token is read as `objectsXYZ`, ra/dec come from the third and fourth
tokens, and the cone test decides emission. -/
theorem sky_cone_object_classification (ra dec radius j1 j2 : ℝ) :
    extractObjectFields j1 j2 "objectsXYZ 42 10.0 20.0" =
      ("objectsXYZ", "42", DecNum.toReal ⟨100, 1, 0⟩, DecNum.toReal ⟨200, 1, 0⟩) ∧
    process_line ra dec radius j1 j2 "objectsXYZ 42 10.0 20.0" =
      (if ang_sep ra dec (DecNum.toReal ⟨100, 1, 0⟩) (DecNum.toReal ⟨200, 1, 0⟩) ≤ radius
        then ["objectsXYZ 42 10.0 20.0"] else []) ∧
    DecNum.toReal ⟨100, 1, 0⟩ = 10 ∧ DecNum.toReal ⟨200, 1, 0⟩ = 20 := by
  refine ⟨rfl, ?_, by norm_num [DecNum.toReal], by norm_num [DecNum.toReal]⟩
  unfold process_line
  rw [if_neg (by decide : ¬("objectsXYZ 42 10.0 20.0".take 6 ≠ "object"))]
  rw [show (extractObjectFields j1 j2 "objectsXYZ 42 10.0 20.0").2.2.1 =
      DecNum.toReal ⟨100, 1, 0⟩ from rfl,
    show (extractObjectFields j1 j2 "objectsXYZ 42 10.0 20.0").2.2.2 =
      DecNum.toReal ⟨200, 1, 0⟩ from rfl]

lemma process_line_object_junk (ra dec radius j1 j2 : ℝ) :
    process_line ra dec radius j1 j2 "object" =
      if ang_sep ra dec j1 j2 ≤ radius then ["object"] else [] := by
  unfold process_line
  rw [if_neg (by decide : ¬("object".take 6 ≠ "object"))]
  rw [show (extractObjectFields j1 j2 "object").2.2.1 = j1 from rfl,
    show (extractObjectFields j1 j2 "object").2.2.2 = j2 from rfl]

lemma run_object_kept :
    sky_cone_select_lines 0 0 10 (fun _ => (0, 0)) ["object"] = ["object"] := by
  show process_line 0 0 10 0 0 "object" ++ [] = ["object"]
  rw [process_line_object_junk, ang_sep_same,
    if_pos (by norm_num : (0 : ℝ) ≤ 10)]
  rfl

lemma run_object_dropped :
    sky_cone_select_lines 0 0 10 (fun _ => (180, 0)) ["object"] = [] := by
  show process_line 0 0 10 180 0 "object" ++ [] = []
  rw [process_line_object_junk, ang_sep_0_180,
    if_neg (by norm_num : ¬((180 : ℝ) ≤ 10))]
  rfl

/-- C8 counterexample: two calls with identical parameters (reference
(0, 0), radius 10) and identical input file content ("object", one object
line with fewer than two tokens) produce different output bytes when the
indeterminate initial values of the uninitialised doubles differ between
the two runs: one run keeps the line, the other drops it. -/
theorem sky_cone_select_junk_dependent :
    sky_cone_select_file (fun p => if p = "in.txt" then some "object" else none)
        "in.txt" 0 0 10 (fun _ => (0, 0)) ≠
      sky_cone_select_file (fun p => if p = "in.txt" then some "object" else none)
        "in.txt" 0 0 10 (fun _ => (180, 0)) := by
  have e1 : sky_cone_select_file (fun p => if p = "in.txt" then some "object" else none)
      "in.txt" 0 0 10 (fun _ => (0, 0)) = "object\n" := by
    show linesOut (sky_cone_select_lines 0 0 10 (fun _ => (0, 0)) ["object"]) = "object\n"
    rw [run_object_kept]
    decide
  have e2 : sky_cone_select_file (fun p => if p = "in.txt" then some "object" else none)
      "in.txt" 0 0 10 (fun _ => (180, 0)) = "" := by
    show linesOut (sky_cone_select_lines 0 0 10 (fun _ => (180, 0)) ["object"]) = ""
    rw [run_object_dropped]
    decide
  rw [e1, e2]
  decide

/-- C7 counterexample: with radius 0 and reference point (0, 0), the object
line with parsed coordinates (360, 0) is KEPT (the angular separation of
(360, 0) from (0, 0) is 0), although (360, 0) ≠ (0, 0): exact coordinate
equality is not what radius 0 selects. -/
theorem sky_cone_radius_zero_wraparound :
    sky_cone_select_lines 0 0 0 (fun _ => (0, 0)) ["object 1 360 0"] =
        ["object 1 360 0"] ∧
    (extractObjectFields 0 0 "object 1 360 0").2.2 = (360, 0) ∧
    ((360 : ℝ), (0 : ℝ)) ≠ ((0 : ℝ), (0 : ℝ)) := by
  have h1 : (extractObjectFields 0 0 "object 1 360 0").2.2.1 = 360 := by
    rw [show (extractObjectFields 0 0 "object 1 360 0").2.2.1 =
        DecNum.toReal ⟨360, 0, 0⟩ from rfl]
    norm_num [DecNum.toReal]
  have h2 : (extractObjectFields 0 0 "object 1 360 0").2.2.2 = 0 := by
    rw [show (extractObjectFields 0 0 "object 1 360 0").2.2.2 =
        DecNum.toReal ⟨0, 0, 0⟩ from rfl]
    norm_num [DecNum.toReal]
  refine ⟨?_, ?_, by norm_num [Prod.ext_iff]⟩
  · show process_line 0 0 0 0 0 "object 1 360 0" ++ [] = ["object 1 360 0"]
    unfold process_line
    rw [if_neg (by decide : ¬("object 1 360 0".take 6 ≠ "object"))]
    have hc : ang_sep 0 0 (extractObjectFields 0 0 "object 1 360 0").2.2.1
        (extractObjectFields 0 0 "object 1 360 0").2.2.2 ≤ 0 := by
      rw [h1, h2, ang_sep_0_360]
    rw [if_pos hc]
    rfl
  · rw [show (extractObjectFields 0 0 "object 1 360 0").2.2 =
        ((extractObjectFields 0 0 "object 1 360 0").2.2.1,
         (extractObjectFields 0 0 "object 1 360 0").2.2.2) from rfl, h1, h2]

/-- The head (if any) of `ys` is whitespace: the shape of the stream
remainder that follows a fully consumed whitespace-token. -/
def wsHead (ys : List Char) : Prop :=
  ∀ y, ys.head? = some y → isWs y = true

lemma isWs_props (y : Char) (h : isWs y = true) :
    y.isDigit = false ∧ y ≠ '.' ∧ y ≠ 'e' ∧ y ≠ 'E' ∧ y ≠ '+' ∧ y ≠ '-' := by
  simp only [isWs, Bool.or_eq_true, beq_iff_eq] at h
  rcases h with ((((h | h) | h) | h) | h) | h <;> subst h <;>
    exact ⟨rfl, by decide, by decide, by decide, by decide, by decide⟩

lemma length_dropWhile_le (p : Char → Bool) (l : List Char) :
    (l.dropWhile p).length ≤ l.length := by
  induction l with
  | nil => simp
  | cons c t ih =>
    rw [List.dropWhile_cons]
    split
    · exact ih.trans (Nat.le_succ _)
    · exact le_refl _

lemma head_dropWhile_false (p : Char → Bool) (l : List Char) (y : Char)
    (h : (l.dropWhile p).head? = some y) : p y = false := by
  induction l with
  | nil => simp at h
  | cons c t ih =>
    rw [List.dropWhile_cons] at h
    by_cases hc : p c
    · rw [if_pos hc] at h; exact ih h
    · rw [if_neg hc] at h
      simp only [List.head?_cons, Option.some.injEq] at h
      subst h
      exact Bool.eq_false_iff.mpr hc

lemma wsHead_dropWhile_nonWs (l : List Char) : wsHead (l.dropWhile nonWs) := by
  intro y hy
  have h := head_dropWhile_false nonWs l y hy
  simpa [nonWs] using h

lemma spanExt (p : Char → Bool) (ys : List Char)
    (hy : ∀ y, ys.head? = some y → p y = false) (l : List Char) :
    (l ++ ys).takeWhile p = l.takeWhile p ∧
      (l ++ ys).dropWhile p = l.dropWhile p ++ ys := by
  induction l with
  | nil =>
    simp only [List.nil_append, List.takeWhile_nil, List.dropWhile_nil]
    cases ys with
    | nil => exact ⟨rfl, rfl⟩
    | cons y t =>
      have hyf := hy y rfl
      constructor
      · rw [List.takeWhile_cons, if_neg (by simp [hyf])]
      · rw [List.dropWhile_cons, if_neg (by simp [hyf])]
  | cons c l ih =>
    by_cases hc : p c
    · constructor
      · rw [List.cons_append, List.takeWhile_cons, List.takeWhile_cons,
          if_pos (by simp [hc]), if_pos (by simp [hc]), ih.1]
      · rw [List.cons_append, List.dropWhile_cons, List.dropWhile_cons,
          if_pos (by simp [hc]), if_pos (by simp [hc]), ih.2]
    · constructor
      · rw [List.cons_append, List.takeWhile_cons, List.takeWhile_cons,
          if_neg (by simp [hc]), if_neg (by simp [hc])]
      · rw [List.cons_append, List.dropWhile_cons, List.dropWhile_cons,
          if_neg (by simp [hc]), if_neg (by simp [hc])]
        rfl

lemma parseSign_append (cs ys : List Char) (h : cs ≠ []) :
    parseSign (cs ++ ys) = ((parseSign cs).1, (parseSign cs).2 ++ ys) := by
  cases cs with
  | nil => exact absurd rfl h
  | cons c r =>
    simp only [parseSign, List.cons_append, List.head?_cons, List.tail_cons]
    split_ifs <;> rfl

lemma expDigitsInput_append (t ys : List Char) (hy : wsHead ys) :
    expDigitsInput (t ++ ys) = expDigitsInput t ++ ys := by
  cases t with
  | nil =>
    simp only [List.nil_append, expDigitsInput, List.head?_nil]
    cases ys with
    | nil => simp
    | cons y t2 =>
      have hp := isWs_props y (hy y rfl)
      rw [if_neg (by simp [hp.2.2.2.2.1, hp.2.2.2.2.2]),
        if_neg (by simp)]
      simp
  | cons b t2 =>
    simp only [List.cons_append, expDigitsInput, List.head?_cons, List.tail_cons]
    split_ifs <;> rfl

lemma parseMant_append (cs ys : List Char) (v : ℕ × ℕ) (r : List Char)
    (h : parseMant cs = some (v, r)) (hy : wsHead ys) :
    parseMant (cs ++ ys) = some (v, r ++ ys) := by
  have hyd : ∀ y, ys.head? = some y → Char.isDigit y = false := fun y hys =>
    (isWs_props y (hy y hys)).1
  obtain ⟨hT, hD⟩ := spanExt Char.isDigit ys hyd cs
  by_cases hdot : (cs.dropWhile Char.isDigit).head? = some '.'
  · obtain ⟨t, ht⟩ : ∃ t, cs.dropWhile Char.isDigit = '.' :: t := by
      cases hcase : cs.dropWhile Char.isDigit with
      | nil => rw [hcase] at hdot; simp at hdot
      | cons a t =>
        rw [hcase] at hdot
        simp only [List.head?_cons, Option.some.injEq] at hdot
        exact ⟨t, by rw [hdot]⟩
    obtain ⟨hT2, hD2⟩ := spanExt Char.isDigit ys hyd t
    unfold parseMant at h ⊢
    rw [if_pos hdot] at h
    rw [ht] at h
    simp only [List.tail_cons] at h
    have hdot2 : ((cs ++ ys).dropWhile Char.isDigit).head? = some '.' := by
      rw [hD, ht]; rfl
    rw [if_pos hdot2]
    rw [hD, hT, ht]
    simp only [List.cons_append, List.tail_cons]
    rw [hT2, hD2]
    by_cases hemp : ((cs.takeWhile Char.isDigit).isEmpty &&
        (t.takeWhile Char.isDigit).isEmpty) = true
    · rw [if_pos hemp] at h; exact absurd h (by simp)
    · rw [if_neg hemp] at h ⊢
      injection h with h1
      injection h1 with hv hr
      rw [hv, hr]
  · unfold parseMant at h ⊢
    rw [if_neg hdot] at h
    rw [hD, hT]
    have hdot2 : ¬((cs.dropWhile Char.isDigit ++ ys).head? = some '.') := by
      cases hcase : cs.dropWhile Char.isDigit with
      | nil =>
        simp only [List.nil_append]
        cases ys with
        | nil => simp
        | cons y t2 =>
          have hp := isWs_props y (hy y rfl)
          simp [hp.2.1]
      | cons a t =>
        rw [hcase] at hdot
        simp only [List.cons_append, List.head?_cons]
        simp only [List.head?_cons] at hdot
        exact hdot
    rw [if_neg hdot2]
    by_cases hemp : (cs.takeWhile Char.isDigit).isEmpty = true
    · rw [if_pos hemp] at h; exact absurd h (by simp)
    · rw [if_neg hemp] at h ⊢
      injection h with h1
      injection h1 with hv hr
      rw [hv, hr]

lemma parseExpPart_append (cs ys : List Char) (e : ℤ) (r : List Char)
    (h : parseExpPart cs = some (e, r)) (hy : wsHead ys) :
    parseExpPart (cs ++ ys) = some (e, r ++ ys) := by
  have hyd : ∀ y, ys.head? = some y → Char.isDigit y = false := fun y hys =>
    (isWs_props y (hy y hys)).1
  by_cases he : cs.head? = some 'e' ∨ cs.head? = some 'E'
  · obtain ⟨a, t, hat⟩ : ∃ a t, cs = a :: t := by
      cases cs with
      | nil => simp at he
      | cons a t => exact ⟨a, t, rfl⟩
    subst hat
    unfold parseExpPart at h ⊢
    rw [if_pos he] at h
    simp only [List.tail_cons] at h
    have he2 : (a :: t ++ ys).head? = some 'e' ∨ (a :: t ++ ys).head? = some 'E' := by
      simpa only [List.cons_append, List.head?_cons] using he
    rw [if_pos he2]
    simp only [List.cons_append, List.tail_cons]
    rw [expDigitsInput_append t ys hy]
    obtain ⟨hT2, hD2⟩ := spanExt Char.isDigit ys hyd (expDigitsInput t)
    rw [hT2, hD2]
    by_cases hemp : ((expDigitsInput t).takeWhile Char.isDigit).isEmpty = true
    · rw [if_pos hemp] at h; exact absurd h (by simp)
    · rw [if_neg hemp] at h ⊢
      have htne : t ≠ [] := by
        intro hte
        subst hte
        exact hemp (by rfl)
      obtain ⟨b, t2, hbt⟩ : ∃ b t2, t = b :: t2 := by
        cases t with
        | nil => exact absurd rfl htne
        | cons b t2 => exact ⟨b, t2, rfl⟩
      subst hbt
      simp only [List.cons_append, List.head?_cons] at h ⊢
      injection h with h1
      injection h1 with hv hr
      rw [hv, hr]
  · unfold parseExpPart at h ⊢
    rw [if_neg he] at h
    injection h with h1
    injection h1 with hv hr
    have he2 : ¬((cs ++ ys).head? = some 'e' ∨ (cs ++ ys).head? = some 'E') := by
      cases cs with
      | nil =>
        simp only [List.nil_append]
        cases ys with
        | nil => simp
        | cons y t2 =>
          have hp := isWs_props y (hy y rfl)
          simp [hp.2.2.1, hp.2.2.2.1]
      | cons a t =>
        simpa only [List.cons_append, List.head?_cons] using he
    rw [if_neg he2, ← hv, ← hr]

lemma parseFloat_empty : parseFloat [] = none := rfl

lemma parseFloat_append (xs ys : List Char) (d : DecNum)
    (hx : parseFloat xs = some (d, [])) (hy : wsHead ys) :
    parseFloat (xs ++ ys) = some (d, ys) := by
  have hne : xs ≠ [] := by
    intro hxe
    subst hxe
    rw [parseFloat_empty] at hx
    exact absurd hx (by simp)
  unfold parseFloat at hx ⊢
  cases hm : parseMant (parseSign xs).2 with
  | none => rw [hm] at hx; exact absurd hx (by simp)
  | some msc =>
    rw [hm] at hx
    simp only [Option.some_bind] at hx
    cases hexp : parseExpPart msc.2 with
    | none => rw [hexp] at hx; exact absurd hx (by simp)
    | some ec =>
      rw [hexp] at hx
      simp only [Option.some_bind, Option.some.injEq, Prod.mk.injEq] at hx
      obtain ⟨hd, hec2⟩ := hx
      rw [parseSign_append xs ys hne]
      dsimp only
      rw [parseMant_append _ ys msc.1 msc.2 hm hy]
      simp only [Option.some_bind]
      rw [parseExpPart_append msc.2 ys ec.1 ec.2 hexp hy]
      simp only [Option.some_bind]
      rw [hec2]
      simp only [List.nil_append]
      rw [hd]

lemma tokenizeAux_nil (n : ℕ) : tokenizeAux n [] = [] := by
  cases n <;> rfl

lemma tokenizeAux_fuel (n : ℕ) : ∀ (m : ℕ) (cs : List Char),
    cs.length ≤ n → cs.length ≤ m → tokenizeAux n cs = tokenizeAux m cs := by
  induction n with
  | zero =>
    intro m cs hn _
    have : cs = [] := List.length_eq_zero.mp (Nat.le_zero.mp hn)
    subst this
    rw [tokenizeAux_nil, tokenizeAux_nil]
  | succ n ih =>
    intro m cs hn hm
    cases m with
    | zero =>
      have : cs = [] := List.length_eq_zero.mp (Nat.le_zero.mp hm)
      subst this
      rw [tokenizeAux_nil, tokenizeAux_nil]
    | succ m =>
      show tokenizeAux (n + 1) cs = tokenizeAux (m + 1) cs
      unfold tokenizeAux
      cases hd : cs.dropWhile isWs with
      | nil => rfl
      | cons c cs' =>
        have hlen : cs'.length + 1 ≤ cs.length := by
          have h1 := length_dropWhile_le isWs cs
          rw [hd] at h1
          simpa using h1
        have h2 := length_dropWhile_le nonWs cs'
        exact congrArg (fun l => String.mk (c :: cs'.takeWhile nonWs) :: l)
          (ih m (cs'.dropWhile nonWs) (by omega) (by omega))

lemma strTokens_nil (cs : List Char) (h : cs.dropWhile isWs = []) :
    strTokens cs = [] := by
  unfold strTokens
  cases hl : cs.length with
  | zero => rfl
  | succ k =>
    show tokenizeAux (k + 1) cs = []
    unfold tokenizeAux
    rw [h]

lemma tokenizeAux_succ (n : ℕ) (cs : List Char) :
    tokenizeAux (Nat.succ n) cs =
      match cs.dropWhile isWs with
      | [] => []
      | c :: cs' =>
        String.mk (c :: cs'.takeWhile nonWs) :: tokenizeAux n (cs'.dropWhile nonWs) :=
  rfl

lemma strTokens_cons (cs : List Char) (c : Char) (cs' : List Char)
    (h : cs.dropWhile isWs = c :: cs') :
    strTokens cs =
      String.mk (c :: cs'.takeWhile nonWs) :: strTokens (cs'.dropWhile nonWs) := by
  have hlen : cs'.length + 1 ≤ cs.length := by
    have h1 := length_dropWhile_le isWs cs
    rw [h] at h1
    simpa using h1
  have hlen2 := length_dropWhile_le nonWs cs'
  unfold strTokens
  cases hl : cs.length with
  | zero => omega
  | succ k =>
    rw [tokenizeAux_succ, h]
    exact congrArg (fun l => String.mk (c :: cs'.takeWhile nonWs) :: l)
      (tokenizeAux_fuel k (cs'.dropWhile nonWs).length (cs'.dropWhile nonWs)
        (by omega) (le_refl _))

lemma readString_eq (cs : List Char) :
    readString ⟨cs, false⟩ =
      match cs.dropWhile isWs with
      | [] => ("", ⟨[], true⟩)
      | c :: cs' =>
        (String.mk (c :: cs'.takeWhile nonWs), ⟨cs'.dropWhile nonWs, false⟩) := rfl

lemma readDouble_eq (cur : ℝ) (cs : List Char) :
    readDouble cur ⟨cs, false⟩ =
      if cs.dropWhile isWs = [] then (cur, ⟨[], true⟩)
      else
        match parseFloat (cs.dropWhile isWs) with
        | some (d, r) => (d.toReal, ⟨r, false⟩)
        | none => (0, ⟨cs.dropWhile isWs, true⟩) := rfl

lemma readString_spec (cs : List Char) (t : String) (ts : List String)
    (h : strTokens cs = t :: ts) :
    ∃ r : List Char, readString ⟨cs, false⟩ = (t, ⟨r, false⟩) ∧ strTokens r = ts := by
  cases hd : cs.dropWhile isWs with
  | nil => rw [strTokens_nil cs hd] at h; exact absurd h (by simp)
  | cons c cs' =>
    rw [strTokens_cons cs c cs' hd] at h
    injection h with h1 h2
    refine ⟨cs'.dropWhile nonWs, ?_, h2⟩
    rw [readString_eq, hd, ← h1]

lemma readDouble_spec (cs : List Char) (t : String) (ts : List String) (d : DecNum)
    (h : strTokens cs = t :: ts) (hp : parseWholeToken t = some d) (cur : ℝ) :
    ∃ r : List Char, readDouble cur ⟨cs, false⟩ = (d.toReal, ⟨r, false⟩) ∧
      strTokens r = ts := by
  cases hd : cs.dropWhile isWs with
  | nil => rw [strTokens_nil cs hd] at h; exact absurd h (by simp)
  | cons c cs' =>
    rw [strTokens_cons cs c cs' hd] at h
    injection h with h1 h2
    have hdata : t.data = c :: cs'.takeWhile nonWs := by rw [← h1]
    have hpf : parseFloat t.data = some (d, []) := by
      unfold parseWholeToken at hp
      cases hq : parseFloat t.data with
      | none => rw [hq] at hp; exact absurd hp (by simp)
      | some p =>
        rw [hq] at hp
        simp only [Option.some_bind] at hp
        by_cases hr : p.2 = []
        · rw [if_pos hr] at hp
          simp only [Option.some.injEq] at hp
          rw [← hp, ← hr]
        · rw [if_neg hr] at hp; exact absurd hp (by simp)
    have hsplit : c :: cs' = t.data ++ cs'.dropWhile nonWs := by
      rw [hdata]
      simp [List.takeWhile_append_dropWhile]
    have happ : parseFloat (c :: cs') = some (d, cs'.dropWhile nonWs) := by
      rw [hsplit]
      exact parseFloat_append _ _ _ hpf (wsHead_dropWhile_nonWs cs')
    refine ⟨cs'.dropWhile nonWs, ?_, h2⟩
    rw [readDouble_eq, hd, if_neg (List.cons_ne_nil c cs'), happ]

lemma extractObjectFields_spec (j1 j2 : ℝ) (line : String) (c o t2 t3 : String)
    (rest : List String) (d2 d3 : DecNum)
    (htok : lineTokens line = c :: o :: t2 :: t3 :: rest)
    (h2 : parseWholeToken t2 = some d2) (h3 : parseWholeToken t3 = some d3) :
    extractObjectFields j1 j2 line = (c, o, d2.toReal, d3.toReal) := by
  obtain ⟨r1, hr1, ht1⟩ := readString_spec line.data c (o :: t2 :: t3 :: rest) htok
  obtain ⟨r2, hr2, ht2⟩ := readString_spec r1 o (t2 :: t3 :: rest) ht1
  obtain ⟨r3, hr3, ht3⟩ := readDouble_spec r2 t2 (t3 :: rest) d2 ht2 h2 j1
  obtain ⟨r4, hr4, ht4⟩ := readDouble_spec r3 t3 rest d3 ht3 h3 j2
  simp only [extractObjectFields, hr1, hr2, hr3, hr4]

lemma process_line_sublist (ra dec radius j1 j2 : ℝ) (l : String) :
    (process_line ra dec radius j1 j2 l).Sublist [l] := by
  unfold process_line
  split
  · exact List.Sublist.refl _
  · split
    · exact List.Sublist.refl _
    · exact List.nil_sublist _

lemma process_line_cases (ra dec radius j1 j2 : ℝ) (l : String) :
    process_line ra dec radius j1 j2 l = [l] ∨
      process_line ra dec radius j1 j2 l = [] := by
  unfold process_line
  split
  · exact Or.inl rfl
  · split
    · exact Or.inl rfl
    · exact Or.inr rfl

lemma process_line_non_object (ra dec radius j1 j2 : ℝ) (line : String)
    (h : line.take 6 ≠ "object") :
    process_line ra dec radius j1 j2 line = [line] := by
  unfold process_line
  rw [if_pos h]

lemma skyConeAux_sublist (ra dec radius : ℝ) (junk : ℕ → ℝ × ℝ)
    (input : List String) : ∀ i : ℕ,
    (skyConeAux ra dec radius junk i input).Sublist input := by
  induction input with
  | nil => intro i; exact List.Sublist.refl _
  | cons l ls ih =>
    intro i
    show (process_line ra dec radius (junk i).1 (junk i).2 l ++
        skyConeAux ra dec radius junk (i + 1) ls).Sublist ([l] ++ ls)
    exact List.Sublist.append (process_line_sublist ra dec radius _ _ l) (ih (i + 1))

lemma skyConeAux_filter (ra dec radius : ℝ) (junk : ℕ → ℝ × ℝ)
    (input : List String) : ∀ i : ℕ,
    (skyConeAux ra dec radius junk i input).filter
        (fun l => !(l.take 6 == "object")) =
      input.filter (fun l => !(l.take 6 == "object")) := by
  induction input with
  | nil => intro i; rfl
  | cons l ls ih =>
    intro i
    show (process_line ra dec radius (junk i).1 (junk i).2 l ++
          skyConeAux ra dec radius junk (i + 1) ls).filter
        (fun l => !(l.take 6 == "object")) = _
    rw [List.filter_append, ih (i + 1), List.filter_cons]
    by_cases hl : l.take 6 = "object"
    · rw [if_neg (by simp [hl])]
      rcases process_line_cases ra dec radius (junk i).1 (junk i).2 l with hc | hc
      · rw [hc, List.filter_cons, if_neg (by simp [hl])]
        rfl
      · rw [hc]
        rfl
    · rw [if_pos (by simp [hl]),
        process_line_non_object ra dec radius _ _ l hl, List.filter_cons,
        if_pos (by simp [hl])]
      rfl

/-- C1: an object line (first six characters `object`) whose third and
fourth whitespace tokens parse as decimal numbers `d2`, `d3` is written
unchanged (the original `line`, not a reconstruction) exactly when
`ang_sep ra dec d2 d3 ≤ radius`, and is dropped otherwise; emitted lines
are a sublist of the input, so their relative order is the input order. -/
theorem sky_cone_select_object_line (ra dec radius j1 j2 : ℝ)
    (junk : ℕ → ℝ × ℝ) (input : List String) (line c o t2 t3 : String)
    (rest : List String) (d2 d3 : DecNum)
    (hobj : line.take 6 = "object")
    (htok : lineTokens line = c :: o :: t2 :: t3 :: rest)
    (h2 : parseWholeToken t2 = some d2)
    (h3 : parseWholeToken t3 = some d3) :
    process_line ra dec radius j1 j2 line =
      (if ang_sep ra dec d2.toReal d3.toReal ≤ radius then [line] else []) ∧
    linesOut (process_line ra dec radius j1 j2 line) =
      (if ang_sep ra dec d2.toReal d3.toReal ≤ radius then line ++ "\n" else "") ∧
    (sky_cone_select_lines ra dec radius junk input).Sublist input := by
  have hred : process_line ra dec radius j1 j2 line =
      if ang_sep ra dec d2.toReal d3.toReal ≤ radius then [line] else [] := by
    unfold process_line
    rw [if_neg (not_not.mpr hobj),
      extractObjectFields_spec j1 j2 line c o t2 t3 rest d2 d3 htok h2 h3]
  refine ⟨hred, ?_, skyConeAux_sublist ra dec radius junk input 0⟩
  rw [hred]
  by_cases h : ang_sep ra dec d2.toReal d3.toReal ≤ radius
  · rw [if_pos h, if_pos h]
    simp [linesOut, String.join]
  · rw [if_neg h, if_neg h]
    rfl

theorem sky_cone_select_object_line_witness :
    ("object 1 0 0".take 6 = "object") ∧
    (lineTokens "object 1 0 0" = ["object", "1", "0", "0"]) ∧
    (parseWholeToken "0" = some ⟨0, 0, 0⟩) ∧
    (process_line 0 0 0 0 0 "object 1 0 0" =
      (if ang_sep 0 0 (DecNum.toReal ⟨0, 0, 0⟩) (DecNum.toReal ⟨0, 0, 0⟩) ≤ 0
        then ["object 1 0 0"] else []) ∧
    linesOut (process_line 0 0 0 0 0 "object 1 0 0") =
      (if ang_sep 0 0 (DecNum.toReal ⟨0, 0, 0⟩) (DecNum.toReal ⟨0, 0, 0⟩) ≤ 0
        then "object 1 0 0" ++ "\n" else "") ∧
    (sky_cone_select_lines 0 0 0 (fun _ => (0, 0)) ["object 1 0 0"]).Sublist
      ["object 1 0 0"]) :=
  ⟨by decide, by decide, by decide,
    sky_cone_select_object_line 0 0 0 0 0 (fun _ => (0, 0)) ["object 1 0 0"]
      "object 1 0 0" "object" "1" "0" "0" [] ⟨0, 0, 0⟩ ⟨0, 0, 0⟩
      (by decide) (by decide) (by decide) (by decide)⟩

/-- C2: a line whose first six characters are not `object` (including any
line shorter than six characters) is always written unchanged followed by
one newline, and the non-object lines of the output are exactly the
non-object lines of the input, in the same order. -/
theorem sky_cone_select_non_object_line (ra dec radius j1 j2 : ℝ)
    (junk : ℕ → ℝ × ℝ) (input : List String) (line : String)
    (h : line.take 6 ≠ "object") :
    process_line ra dec radius j1 j2 line = [line] ∧
    linesOut (process_line ra dec radius j1 j2 line) = line ++ "\n" ∧
    (sky_cone_select_lines ra dec radius junk input).filter
        (fun l => !(l.take 6 == "object")) =
      input.filter (fun l => !(l.take 6 == "object")) := by
  refine ⟨process_line_non_object ra dec radius j1 j2 line h, ?_,
    skyConeAux_filter ra dec radius junk input 0⟩
  rw [process_line_non_object ra dec radius j1 j2 line h]
  simp [linesOut, String.join]

theorem sky_cone_select_non_object_line_witness :
    ("phoSimHdr alpha".take 6 ≠ "object") ∧
    (process_line 1 2 3 4 5 "phoSimHdr alpha" = ["phoSimHdr alpha"] ∧
    linesOut (process_line 1 2 3 4 5 "phoSimHdr alpha") = "phoSimHdr alpha" ++ "\n" ∧
    (sky_cone_select_lines 1 2 3 (fun _ => (4, 5))
        ["phoSimHdr alpha", "object 9 10 20"]).filter
        (fun l => !(l.take 6 == "object")) =
      (["phoSimHdr alpha", "object 9 10 20"] : List String).filter
        (fun l => !(l.take 6 == "object"))) :=
  ⟨by decide,
    sky_cone_select_non_object_line 1 2 3 4 5 (fun _ => (4, 5))
      ["phoSimHdr alpha", "object 9 10 20"] "phoSimHdr alpha" (by decide)⟩

lemma dot3_eq_one_iff (u v : ℝ × ℝ × ℝ) (hu : dot3 u u = 1) (hv : dot3 v v = 1) :
    dot3 u v = 1 ↔ u = v := by
  constructor
  · intro h
    obtain ⟨u1, u2, u3⟩ := u
    obtain ⟨v1, v2, v3⟩ := v
    simp only [dot3] at h hu hv
    have s1 : (u1 - v1) ^ 2 ≤ 0 := by
      nlinarith [sq_nonneg (u2 - v2), sq_nonneg (u3 - v3)]
    have s2 : (u2 - v2) ^ 2 ≤ 0 := by
      nlinarith [sq_nonneg (u1 - v1), sq_nonneg (u3 - v3)]
    have s3 : (u3 - v3) ^ 2 ≤ 0 := by
      nlinarith [sq_nonneg (u1 - v1), sq_nonneg (u2 - v2)]
    have e1 : u1 = v1 := by
      have := sq_eq_zero_iff.mp (le_antisymm s1 (sq_nonneg _))
      linarith
    have e2 : u2 = v2 := by
      have := sq_eq_zero_iff.mp (le_antisymm s2 (sq_nonneg _))
      linarith
    have e3 : u3 = v3 := by
      have := sq_eq_zero_iff.mp (le_antisymm s3 (sq_nonneg _))
      linarith
    simp [Prod.ext_iff, e1, e2, e3]
  · intro h
    rw [h]
    exact hv

lemma ang_sep_le_zero_iff (ra dec ra1 dec1 : ℝ) :
    ang_sep ra dec ra1 dec1 ≤ 0 ↔ sphVec ra1 dec1 = sphVec ra dec := by
  unfold ang_sep
  rw [clamp_sphVec]
  constructor
  · intro h
    have hpos : (0 : ℝ) < 180 / Real.pi := by positivity
    have hnn := Real.arccos_nonneg (dot3 (sphVec ra dec) (sphVec ra1 dec1))
    have harc : Real.arccos (dot3 (sphVec ra dec) (sphVec ra1 dec1)) = 0 := by
      nlinarith
    have hge : 1 ≤ dot3 (sphVec ra dec) (sphVec ra1 dec1) :=
      Real.arccos_eq_zero.mp harc
    have hle := dot3_le_one _ _ (sphVec_dot_self ra dec) (sphVec_dot_self ra1 dec1)
    exact ((dot3_eq_one_iff _ _ (sphVec_dot_self ra dec)
      (sphVec_dot_self ra1 dec1)).mp (le_antisymm hle hge)).symm
  · intro h
    rw [h, sphVec_dot_self]
    simp [Real.arccos_one]

/-- C7 (amended): with radius 0, an object line whose third and fourth
tokens parse as `d2`, `d3` is kept exactly when (d2, d3) denotes the SAME
POINT of the unit sphere as the reference (ra, dec) — equal unit vectors —
not necessarily the same coordinate pair.  Exact coordinate equality is a
special case; coordinates differing by a full turn (e.g. ra + 360) are
also kept. -/
theorem sky_cone_radius_zero_iff (ra dec j1 j2 : ℝ)
    (line c o t2 t3 : String) (rest : List String) (d2 d3 : DecNum)
    (hobj : line.take 6 = "object")
    (htok : lineTokens line = c :: o :: t2 :: t3 :: rest)
    (h2 : parseWholeToken t2 = some d2)
    (h3 : parseWholeToken t3 = some d3) :
    process_line ra dec 0 j1 j2 line = [line] ↔
      sphVec d2.toReal d3.toReal = sphVec ra dec := by
  rw [← ang_sep_le_zero_iff ra dec d2.toReal d3.toReal]
  have hred : process_line ra dec 0 j1 j2 line =
      if ang_sep ra dec d2.toReal d3.toReal ≤ 0 then [line] else [] := by
    unfold process_line
    rw [if_neg (not_not.mpr hobj),
      extractObjectFields_spec j1 j2 line c o t2 t3 rest d2 d3 htok h2 h3]
  rw [hred]
  by_cases h : ang_sep ra dec d2.toReal d3.toReal ≤ 0
  · simp [h]
  · simp [h]

theorem sky_cone_radius_zero_iff_witness :
    ("object 1 0 0".take 6 = "object") ∧
    (lineTokens "object 1 0 0" = ["object", "1", "0", "0"]) ∧
    (parseWholeToken "0" = some ⟨0, 0, 0⟩) ∧
    (process_line 0 0 0 0 0 "object 1 0 0" = ["object 1 0 0"] ↔
      sphVec (DecNum.toReal ⟨0, 0, 0⟩) (DecNum.toReal ⟨0, 0, 0⟩) = sphVec 0 0) :=
  ⟨by decide, by decide, by decide,
    sky_cone_radius_zero_iff 0 0 0 0 "object 1 0 0" "object" "1" "0" "0" []
      ⟨0, 0, 0⟩ ⟨0, 0, 0⟩ (by decide) (by decide) (by decide) (by decide)⟩

lemma process_line_junk_congr (ra dec radius a b a2 b2 : ℝ) (l : String)
    (h : l.take 6 = "object" →
      (extractObjectFields a b l).2.2 = (extractObjectFields a2 b2 l).2.2) :
    process_line ra dec radius a b l = process_line ra dec radius a2 b2 l := by
  by_cases hl : l.take 6 = "object"
  · have hp := h hl
    unfold process_line
    rw [if_neg (not_not.mpr hl), if_neg (not_not.mpr hl), hp]
  · unfold process_line
    rw [if_pos hl, if_pos hl]

/-- C8 (amended): the output is a function of (reference point, radius,
input lines) alone — two runs agree — provided every object line of the
input determines its extracted (ra_obj, dec_obj) independently of the
indeterminate initial values of the two uninitialised doubles.  This
requires non-whitespace input to remain at each of the two double
extractions and the `ra_obj` conversion to succeed (e.g. the line has at
least four whitespace tokens and its third token begins with a valid
number); a sentry failure at end of input, or any extraction after a
failed one, leaves the corresponding double indeterminate. -/
theorem sky_cone_select_deterministic (ra dec radius : ℝ)
    (junk junk' : ℕ → ℝ × ℝ) (input : List String)
    (h : ∀ l ∈ input, l.take 6 = "object" → ∀ a b a2 b2 : ℝ,
      (extractObjectFields a b l).2.2 = (extractObjectFields a2 b2 l).2.2) :
    sky_cone_select_lines ra dec radius junk input =
      sky_cone_select_lines ra dec radius junk' input := by
  unfold sky_cone_select_lines
  have main : ∀ (ls : List String),
      (∀ l ∈ ls, l.take 6 = "object" → ∀ a b a2 b2 : ℝ,
        (extractObjectFields a b l).2.2 = (extractObjectFields a2 b2 l).2.2) →
      ∀ i : ℕ, skyConeAux ra dec radius junk i ls =
        skyConeAux ra dec radius junk' i ls := by
    intro ls
    induction ls with
    | nil => intro _ i; rfl
    | cons l t ih =>
      intro hl i
      show process_line ra dec radius (junk i).1 (junk i).2 l ++
          skyConeAux ra dec radius junk (i + 1) t =
        process_line ra dec radius (junk' i).1 (junk' i).2 l ++
          skyConeAux ra dec radius junk' (i + 1) t
      rw [process_line_junk_congr ra dec radius (junk i).1 (junk i).2
          (junk' i).1 (junk' i).2 l (fun hobj => hl l (by simp) hobj _ _ _ _),
        ih (fun l2 hl2 => hl l2 (by simp [hl2])) (i + 1)]
  exact main input h 0

theorem sky_cone_select_deterministic_witness :
    (∀ l ∈ (["phoSimHdr", "object 1 2 3"] : List String),
      l.take 6 = "object" → ∀ a b a2 b2 : ℝ,
      (extractObjectFields a b l).2.2 = (extractObjectFields a2 b2 l).2.2) ∧
    sky_cone_select_lines 0 0 180 (fun _ => (0, 0)) ["phoSimHdr", "object 1 2 3"] =
      sky_cone_select_lines 0 0 180 (fun n => ((n : ℝ), 1))
        ["phoSimHdr", "object 1 2 3"] := by
  have hdet : ∀ l ∈ (["phoSimHdr", "object 1 2 3"] : List String),
      l.take 6 = "object" → ∀ a b a2 b2 : ℝ,
      (extractObjectFields a b l).2.2 = (extractObjectFields a2 b2 l).2.2 := by
    intro l hl
    rcases List.mem_cons.mp hl with h1 | h1
    · subst h1
      intro hobj
      exact absurd hobj (by decide)
    · rcases List.mem_cons.mp h1 with h2 | h2
      · subst h2
        intro _ a b a2 b2
        rfl
      · exact absurd h2 (List.not_mem_nil l)
  exact ⟨hdet, sky_cone_select_deterministic 0 0 180 (fun _ => (0, 0))
    (fun n => ((n : ℝ), 1)) ["phoSimHdr", "object 1 2 3"] hdet⟩
